import Mathlib

/-!
Verification development for the yasvi editor core (src/buffer.c,
src/buffer_row.c, src/editor.c, src/command.c), as a shallow embedding:
rows are lists of characters, the doubly-linked row list is a `List` of
rows, and each C function is translated into a Lean function on these
values.  C `int` indices are `Int` where a sign check matters, `size_t`
arithmetic is `Nat` taken modulo `2^64`.
-/

set_option maxRecDepth 4000

/-- Highlight token kinds, from src/highlight.h (`EHighlightToken`).
`StringT`/`TypeT` stand for the C enumerators `EHighlightToken_String` /
`EHighlightToken_Type` (renamed to avoid clashing with Lean's `String` and
`Type`). -/
inductive EHighlightToken where
  | Normal
  | Keyword
  | StringT
  | Comment
  | TypeT
  | Preprocessor
  | Digit
  | Symbol
  | Keyword2
  | Symbol2
deriving Repr, DecidableEq, BEq

/-- The whitespace character set from src/buffer_row.c
(`const char whitespace[] = " \f\n\r\t\v"`). -/
def whitespaceChars : List Char := [' ', '\x0c', '\n', '\r', '\t', '\x0b']

/-- `strchr(whitespace, c) != NULL` for a non-NUL character `c`. -/
def isWhitespaceChar (c : Char) : Bool := whitespaceChars.contains c

/-- `is_digit` from src/buffer_row.c. -/
def is_digit (c : Char) : Bool := '0' ≤ c ∧ c ≤ '9'

/-- The identifier-character test of src/buffer_row.c:87 line 205-207:
`A-Z`, `a-z`, `_`, or `0-9`. -/
def isIdentChar (c : Char) : Bool :=
  ('A' ≤ c ∧ c ≤ 'Z') ∨ ('a' ≤ c ∧ c ≤ 'z') ∨ c = '_' ∨ ('0' ≤ c ∧ c ≤ '9')

/-- `static const char* symbols` from src/buffer_row.c. -/
def symbols : List Char :=
  ['+', '-', '|', '<', '>', '=', ':', '?', '!', '(', ')', ',', ';', '\x7b', '\x7d', '/']

/-- `static const char* symbols2` from src/buffer_row.c. -/
def symbols2 : List Char := ['*', '&', '\x7b', '\x7d', '[', ']']

/-- `static const char* include_symbols = "\"<>"`. -/
def includeSymbols : List Char := ['"', '<', '>']

/-- `static const char* string_symbols = "\"'"`. -/
def stringSymbols : List Char := ['"', '\'']

/-- `static const char* keywords_1[]` from src/buffer_row.c. -/
def keywords_1 : List (List Char) :=
  ["if", "else", "while", "for", "return", "break", "continue", "switch",
   "case", "default", "do", "goto", "typedef", "struct", "union",
   "static"].map String.toList

/-- `static const char* types[]` from src/buffer_row.c. -/
def typesList : List (List Char) :=
  ["int", "char", "float", "double", "void", "bool", "short", "long",
   "unsigned", "signed", "size_t"].map String.toList

/-- `static const char* keywords_2[]` from src/buffer_row.c (the C array has
no NULL terminator — reading it with `is_token` walks past its end, which is
undefined behaviour; we model the five intended entries). -/
def keywords_2 : List (List Char) :=
  ["false", "true", "NULL", "FALSE", "TRUE"].map String.toList

/-- `is_token`: the word `data[token_start..i)` matches an entry of the list
exactly (C: `strlen(*kw) == n && strncmp(*kw, word, n) == 0`). -/
def is_token (arr : List (List Char)) (word : List Char) : Bool :=
  arr.any (· = word)

/-- Write `token` into `hl[j]` for `token_start ≤ j < i`
(the inner loops of `highlight_token`). -/
def setHlRange (hl : List EHighlightToken) (s e : Nat) (t : EHighlightToken) :
    List EHighlightToken :=
  hl.mapIdx fun j x => if s ≤ j ∧ j < e then t else x

/-- `highlight_token` from src/buffer_row.c: look the identifier
`data[token_start..i)` up in the three word lists and retroactively tag it. -/
def highlight_token (data : List Char) (hl : List EHighlightToken)
    (token_start i : Nat) : List EHighlightToken :=
  let word := (data.drop token_start).take (i - token_start)
  if is_token keywords_1 word then setHlRange hl token_start i .Keyword
  else if is_token keywords_2 word then setHlRange hl token_start i .Keyword2
  else if is_token typesList word then setHlRange hl token_start i .TypeT
  else hl

/-- A row of the document, from src/buffer_row.h (`struct BufferRow`).
`data` holds the `len` logical characters (`len = data.length`);
`highlight_data` is the parallel tag array as far as it has been written;
`next`/`prev` are represented by the position of the row in a `List`. -/
structure BufferRow where
  data : List Char
  highlight_data : List EHighlightToken
  allocated_size : Nat
  dirty : Bool
  highlight_comment_open : Nat
  highlight_string_open : Nat
deriving Repr, DecidableEq

/-- The mutable state of one iteration of `buffer_row_highlight_line`’s
scan: the row fields it writes plus the function-local variables.
`token_start = none` models the C value `-1`; `string_started` and
`highlight_string_open` hold the delimiter’s character code (0 = none). -/
structure HlScan where
  hl : List EHighlightToken
  highlight_comment_open : Nat
  highlight_string_open : Nat
  comment_started : Bool
  string_started : Nat
  preprocessor_started : Nat
  include_started : Nat
  escape_sequence_started : Bool
  token_start : Option Nat
  process_next_row : Bool
deriving Repr, DecidableEq

/-- Does `l` start with `p`?  (C `strstr(s, p) == s`.) -/
def listStartsWith : List Char → List Char → Bool
  | _, [] => true
  | [], _ :: _ => false
  | c :: l, d :: p => c = d ∧ listStartsWith l p

/-- One iteration of the `for (int i = 0; i < row->len; ++i)` scan of
`buffer_row_highlight_line` (src/buffer_row.c lines 117-231), branch by
branch in the C order. -/
def scanStep (data : List Char) (s : HlScan) (i : Nat) : HlScan :=
  let len := data.length
  let d := data.getD i '\x00'
  let dprev := data.getD (i - 1) '\x00'
  if s.comment_started then
    let s :=
      if d = '/' ∧ 1 < i ∧ dprev = '*' then
        { s with highlight_comment_open := 0, comment_started := false }
      else s
    { s with hl := s.hl.set i .Comment }
  else if s.string_started ≠ 0 then
    if d = '\\' then
      if i = len - 1 then
        { s with hl := s.hl.set i .Digit, escape_sequence_started := false,
                 highlight_string_open := s.string_started,
                 process_next_row := true }
      else
        { s with hl := s.hl.set i .Digit, escape_sequence_started := true }
    else if s.escape_sequence_started then
      if isWhitespaceChar d then
        { s with hl := s.hl.set i .Digit, escape_sequence_started := false,
                 highlight_string_open := s.string_started,
                 process_next_row := true }
      else
        { s with hl := s.hl.set i .Digit, escape_sequence_started := false }
    else if d.toNat = s.string_started then
      { s with hl := s.hl.set i .StringT, string_started := 0,
               highlight_string_open := 0 }
    else
      { s with hl := s.hl.set i .StringT }
  else if s.include_started ≠ 0 then
    let inc := if includeSymbols.contains d then s.include_started + 1
               else s.include_started
    let inc := if inc = 3 then 0 else inc
    { s with include_started := inc, hl := s.hl.set i .StringT }
  else if s.preprocessor_started ≠ 0 then
    if isWhitespaceChar d then
      let inc := if listStartsWith (data.drop s.preprocessor_started)
                      ("include".toList) then 1 else s.include_started
      { s with hl := s.hl.set i .Normal, include_started := inc,
               preprocessor_started := 0 }
    else
      { s with hl := s.hl.set i .Preprocessor }
  else if stringSymbols.contains d then
    { s with string_started := d.toNat, highlight_string_open := d.toNat,
             hl := s.hl.set i .StringT }
  else if d = '#' then
    { s with preprocessor_started := i + 1, hl := s.hl.set i .Preprocessor }
  else if d = '/' then
    if 0 < i then
      if dprev = '/' then
        { s with comment_started := true,
                 hl := (s.hl.set i .Comment).set (i - 1) .Comment }
      else if dprev = '*' then
        { s with hl := (s.hl.set i .Comment).set (i - 1) .Comment,
                 highlight_comment_open := 0, comment_started := false }
      else s
    else
      { s with hl := s.hl.set i .Symbol }
  else if d = '*' then
    if 0 < i ∧ dprev = '/' then
      { s with hl := (s.hl.set i .Comment).set (i - 1) .Comment,
               highlight_comment_open := 1, comment_started := true }
    else
      let s :=
        match s.token_start with
        | some ts => { s with hl := highlight_token data s.hl ts i,
                              token_start := none }
        | none => s
      { s with hl := s.hl.set i .Symbol2 }
  else if d = '\\' then
    { s with hl := s.hl.set i .Digit }
  else
    let s := { s with hl := s.hl.set i .Normal }
    let s :=
      if isIdentChar d then
        let s :=
          if s.token_start.isNone then
            if is_digit d then { s with hl := s.hl.set i .Digit }
            else { s with token_start := some i }
          else s
        { s with hl := s.hl.set i .Normal }
      else
        match s.token_start with
        | some ts => { s with hl := highlight_token data s.hl ts i,
                              token_start := none }
        | none => s
    if s.token_start.isNone then
      if symbols.contains d then { s with hl := s.hl.set i .Symbol }
      else if symbols2.contains d then { s with hl := s.hl.set i .Symbol2 }
      else s
    else s

/-- One iteration of the outer `while (process_next_row)` loop of
`buffer_row_highlight_line`: load the row and its predecessor’s exit state,
scan every character, flush a trailing identifier.  `carried` holds the
function-local variables that the C code does not reset between rows
(`string_started`, `preprocessor_started`, `include_started`,
`escape_sequence_started`). -/
def highlightOneRow (prev : Option BufferRow) (carried : HlScan)
    (row : BufferRow) : BufferRow × HlScan :=
  let s0 : HlScan :=
    { carried with
      hl := row.highlight_data,
      highlight_comment_open := row.highlight_comment_open,
      highlight_string_open := row.highlight_string_open,
      comment_started := false,
      process_next_row := false,
      token_start := none }
  let s0 :=
    match prev with
    | some p =>
      let s0 :=
        if p.highlight_string_open ≠ 0 ∧ row.highlight_comment_open = 0 then
          { s0 with string_started := p.highlight_string_open }
        else s0
      if p.highlight_comment_open ≠ 0 then
        { s0 with highlight_comment_open := p.highlight_comment_open,
                  comment_started := true }
      else s0
    | none => s0
  let s1 := (List.range row.data.length).foldl (scanStep row.data) s0
  let s2 :=
    match s1.token_start with
    | some ts =>
      { s1 with hl := highlight_token row.data s1.hl ts row.data.length }
    | none => s1
  ({ row with highlight_data := s2.hl,
              highlight_comment_open := s2.highlight_comment_open,
              highlight_string_open := s2.highlight_string_open,
              dirty := true }, s2)

/-- The outer loop of `buffer_row_highlight_line`: process the given row and
keep walking `row->next` while `process_next_row` was set. -/
def highlightLines : Option BufferRow → HlScan → List BufferRow → List BufferRow
  | _, _, [] => []
  | prev, carried, row :: rest =>
    let pr := highlightOneRow prev carried row
    if pr.2.process_next_row then pr.1 :: highlightLines (some pr.1) pr.2 rest
    else pr.1 :: rest

/-- The initial values of `buffer_row_highlight_line`’s locals
(src/buffer_row.c lines 91-96). -/
def initHlScan : HlScan :=
  { hl := [], highlight_comment_open := 0, highlight_string_open := 0,
    comment_started := false, string_started := 0, preprocessor_started := 0,
    include_started := 0, escape_sequence_started := false,
    token_start := none, process_next_row := true }

/-- `buffer_row_highlight_line(row)`: `rows` is the sublist of the document
from the argument row to the tail, `prev` the row linked before it. -/
def buffer_row_highlight_line (prev : Option BufferRow)
    (rows : List BufferRow) : List BufferRow :=
  highlightLines prev initHlScan rows

/-- Calling `buffer_row_highlight_line` on row `k` of a document: rows before
`k` are not reachable from the argument row (the scan only follows `next`),
so they are returned unchanged. -/
def buffer_highlight_at (doc : List BufferRow) (k : Nat) : List BufferRow :=
  doc.take k ++
    buffer_row_highlight_line (if k = 0 then none else doc.get? (k - 1))
      (doc.drop k)

/-- `buffer_row_has_whitespace_at_position` from src/buffer_row.c: false for
an invalid position, else membership of `data[position]` in the whitespace
set. -/
def buffer_row_has_whitespace_at_position (row : List Char)
    (position : Int) : Bool :=
  if position < 0 ∨ (row.length : Int) ≤ position then false
  else isWhitespaceChar (row.getD position.toNat '\x00')

/-- The first `for` loop of `buffer_row_get_offset_to_next_word`
(src/buffer_row.c lines 270-286), with its three exits: skipping whitespace
before the first non-blank character counts `stripped` and, the moment a
non-blank is found after stripping, the loop exits with `offset = stripped`;
otherwise it exits at the first whitespace after the initial word, or at the
end of the row.  Returns the loop's final `offset` and `first_char`.
`fuel` is a structural bound on the remaining iterations; any
`fuel ≥ row.length - offset` gives the C loop (the loop advances `offset` by
one per iteration and stops at `row.length`). -/
def nextWordLoop1 (row : List Char) :
    (fuel : Nat) → (first_char : Bool) → (stripped offset : Nat) → Nat × Bool
  | 0, first_char, _, offset => (offset, first_char)
  | fuel + 1, first_char, stripped, offset =>
    if offset < row.length then
      if ¬ first_char ∧ buffer_row_has_whitespace_at_position row offset then
        nextWordLoop1 row fuel false (stripped + 1) (offset + 1)
      else if 0 < stripped then (stripped, true)
      else if buffer_row_has_whitespace_at_position row offset then
        (offset, true)
      else nextWordLoop1 row fuel true stripped (offset + 1)
    else (offset, first_char)

/-- The first index `j ≥ i` whose character is not whitespace, or `row.length`
(the second `for` loop of `buffer_row_get_offset_to_next_word`); `fuel` as in
`nextWordLoop1`. -/
def firstNonWsFrom (row : List Char) : (fuel : Nat) → (i : Nat) → Nat
  | 0, i => if i < row.length then i else row.length
  | fuel + 1, i =>
    if i < row.length then
      if ¬ buffer_row_has_whitespace_at_position row i then i
      else firstNonWsFrom row fuel (i + 1)
    else row.length

/-- The first index `j ≥ i` whose character is whitespace, or `row.length`. -/
def firstWsFrom (row : List Char) : (fuel : Nat) → (i : Nat) → Nat
  | 0, i => if i < row.length then i else row.length
  | fuel + 1, i =>
    if i < row.length then
      if buffer_row_has_whitespace_at_position row i then i
      else firstWsFrom row fuel (i + 1)
    else row.length

/-- `buffer_row_get_offset_to_next_word` from src/buffer_row.c. -/
def buffer_row_get_offset_to_next_word (row : List Char)
    (start_index : Int) : Int :=
  if start_index < 0 ∨ (row.length : Int) ≤ start_index then 0
  else
    let st := start_index.toNat
    let r := nextWordLoop1 row row.length false 0 st
    let offset2 := firstNonWsFrom row row.length r.1
    if offset2 < row.length then (offset2 : Int) - start_index
    else if r.2 then (row.length : Int) - start_index
    else 0

/-- The word-motion semantics in the spec's words: a word is a maximal run of
non-whitespace characters; from `start` skip the remainder of the current
word (if any), then skip whitespace; the result is the offset to the first
character of the next word, or to the end of the line if there is none. -/
def offset_to_next_word_boundary_spec (row : List Char) (start : Nat) : Int :=
  let wordEnd :=
    if buffer_row_has_whitespace_at_position row start then start
    else firstWsFrom row row.length start
  (firstNonWsFrom row row.length wordEnd : Int) - start

/-- The `for (int i = start_index - 1; i > 0; i--)` loop of
`buffer_row_get_offset_to_prev_word` (src/buffer_row.c lines 307-319)
together with the two returns after it (the loop runs while `i > 0` and
decrements `i`). -/
def prevWordLoop (row : List Char) (start : Nat) :
    (first_char : Bool) → (i : Nat) → Int
  | first_char, 0 => if first_char then -(start : Int) else 0
  | first_char, i + 1 =>
    if ¬ first_char ∧ ¬ buffer_row_has_whitespace_at_position row (i + 1) then
      prevWordLoop row start true i
    else if ¬ first_char then prevWordLoop row start false i
    else if buffer_row_has_whitespace_at_position row (i + 1) then
      ((i + 1 : Nat) : Int) - start + 1
    else prevWordLoop row start true i

/-- `buffer_row_get_offset_to_prev_word` from src/buffer_row.c. -/
def buffer_row_get_offset_to_prev_word (row : List Char)
    (start_index : Int) : Int :=
  if start_index < 0 ∨ (row.length : Int) < start_index then 0
  else prevWordLoop row start_index.toNat false (start_index.toNat - 1)

/-- The row content stored by `buffer_append_line` (src/buffer.c lines
84-116): the raw line is copied and then, if its last character is `'\n'` or
`'\r'`, that single character is dropped.  (For the empty line the C code
reads `data[-1]`, which is undefined; the model leaves the line unchanged.) -/
def buffer_append_line_content (line : List Char) : List Char :=
  match line.getLast? with
  | some c => if c = '\n' ∨ c = '\r' then line.dropLast else line
  | none => line

/-- Stripping a trailing line terminator in the spec's words: `"\r\n"` is
removed as a unit, otherwise a single trailing `'\n'` or `'\r'` is removed. -/
def strip_line_terminator_spec (line : List Char) : List Char :=
  match line.reverse with
  | '\n' :: '\r' :: rest => rest.reverse
  | '\n' :: rest => rest.reverse
  | '\r' :: rest => rest.reverse
  | _ => line

/-- `2^64`, the modulus of C `size_t` arithmetic. -/
def sizeTMod : Nat := 2 ^ 64

/-- The storage-relevant part of a row for the mutation primitives of
src/buffer_row.c: `data` is the logical content (`len = data.length`) and
`allocated_size` the capacity of the backing allocation, which always also
holds a NUL terminator at index `len` (so a well-formed row has
`len < allocated_size`).  The trailing `buffer_row_highlight_line` call made
by the C mutators rewrites only `highlight_data`/`dirty`/continuation fields
and never `data`, `len` or `allocated_size`; it is modelled separately by
`highlightLines`. -/
structure RowMem where
  data : List Char
  allocated_size : Nat
deriving Repr, DecidableEq

/-- The reallocation of `buffer_row_insert_chars` (src/buffer_row.c lines
374-379): when `len + number >= allocated_size` the capacity becomes
`(len + number) << 1`. -/
def insertGrowth (len number alloc : Nat) : Nat :=
  if alloc ≤ len + number then 2 * (len + number) else alloc

/-- The growth policy the spec claims: `max(needed, current_len + 16)`,
where `needed` is the length required by the insertion. -/
def growth_policy_spec (needed current_len : Nat) : Nat :=
  max needed (current_len + 16)

/-- The reallocation of the older `buffer_row_insert_char` in src/buffer.c
(lines 328-332): when `len + 1 >= allocated_size` the capacity becomes
`len + 16`. -/
def insertCharGrowthOld (len alloc : Nat) : Nat :=
  if alloc ≤ len + 1 then len + 16 else alloc

/-- `buffer_row_insert_chars` from src/buffer_row.c.  The only bounds check
is `index < 0` (besides the NULL-row check); there is no `index > len`
check.  The `memmove` then copies `len - index + 1` bytes — computed in
`size_t`, so for `index > len + 1` it wraps around to a huge count — from
`data[index]` to `data[index + number]`, and `memcpy` writes `number` bytes
at `data[index]`.  The result is `none` when one of those accesses falls
outside the `allocated_size` bytes of the row's storage (a fault);
otherwise the updated row.  For `index > len` the bytes between the logical
end and `index` come from uninitialised storage, modelled as NUL. -/
def buffer_row_insert_chars (r : RowMem) (index : Int) (str : List Char) :
    Option RowMem :=
  if index < 0 then some r
  else
    let len := r.data.length
    let number := str.length
    let alloc := insertGrowth len number r.allocated_size
    let i := index.toNat
    let cnt := (((len : Int) - index + 1) % (sizeTMod : Int)).toNat
    if i + number + cnt ≤ alloc ∧ i + number ≤ alloc then
      some { data :=
               if i ≤ len then r.data.take i ++ str ++ r.data.drop i
               else ((r.data ++ List.replicate (i - len) '\x00') ++ str).take
                      (len + number),
             allocated_size := alloc }
    else none

/-- `buffer_row_remove_chars` from src/buffer_row.c: invalid `index` is
rejected with return value 0; `number` is clamped to `len - index`; the
clamped count of characters is deleted at `index` and returned. -/
def buffer_row_remove_chars (r : RowMem) (index : Int) (number : Nat) :
    RowMem × Nat :=
  if index < 0 ∨ (r.data.length : Int) ≤ index then (r, 0)
  else
    let len := r.data.length
    let i := index.toNat
    let n := if len < number + i then len - i else number
    ({ data := r.data.take i ++ r.data.drop (i + n),
       allocated_size := r.allocated_size }, n)

/-- `buffer_row_replace_line` from src/buffer_row.c: the row's content
becomes `new_line`, both arrays are reallocated to `len + 1` (the prefix of
the old tag array is preserved, the reallocated tail is uninitialised and
modelled as `Normal`), the row is marked dirty and re-highlighted.  `prev`
is the row linked before this one (`row->prev`), consumed by the highlight
pass. -/
def buffer_row_replace_line (prev : Option BufferRow) (row : BufferRow)
    (new_line : List Char) : BufferRow :=
  let len := new_line.length
  let r : BufferRow :=
    { row with
      data := new_line,
      allocated_size := len + 1,
      highlight_data :=
        (row.highlight_data ++ List.replicate (len + 1) EHighlightToken.Normal).take (len + 1),
      dirty := true }
  match buffer_row_highlight_line prev [r] with
  | r' :: _ => r'
  | [] => r

/-- The document: the doubly-linked row list of src/buffer.h (`Buffer`) as a
list plus the index of `current_row`. -/
structure Buffer where
  rows : List BufferRow
  current : Nat
deriving Repr, DecidableEq

/-- `row->prev` of the current row. -/
def prevOfCurrent (b : Buffer) : Option BufferRow :=
  if b.current = 0 then none else b.rows.get? (b.current - 1)

/-- Modelled from the spec: `buffer_remove_current_row` is called from
src/editor.c but its definition is not under src/ (src/buffer.c predates
it).  Spec §4.2: it removes `current_row` and reassigns it to the next row
if present (returning +1), else to the previous row (returning −1), else
leaves the document's single row cleared (returning 0 — a Document is never
fully empty). -/
def buffer_remove_current_row (b : Buffer) : Buffer × Int :=
  if b.rows.length ≤ 1 then
    ({ b with rows := b.rows.map fun r => { r with data := [], dirty := true } }, 0)
  else if b.current + 1 < b.rows.length then
    ({ rows := b.rows.eraseIdx b.current, current := b.current }, 1)
  else
    ({ rows := b.rows.eraseIdx b.current, current := b.current - 1 }, -1)

/-- The `dd` arm (`case 'd'`) of `editor_process_dkey_sequence`
(src/editor.c lines 619-648): on a document of at most one line the current
row's content is replaced by the string `"\n"` via
`buffer_row_replace_line`; otherwise `buffer_remove_current_row` unlinks the
current row.  (The `dw` arm and the cursor/dirty bookkeeping are separate
and not needed here.) -/
def editor_process_dkey_sequence_dd (b : Buffer) : Buffer :=
  if b.rows.length ≤ 1 then
    match b.rows.get? b.current with
    | some r =>
      { b with
        rows := b.rows.set b.current
          (buffer_row_replace_line (prevOfCurrent b) r ['\n']) }
    | none => b
  else (buffer_remove_current_row b).1


/-- The collected colon-command line, from src/command.h (`Command`):
`buffer` is the `buffer_size`-byte allocation, `cursor_position` a `size_t`. -/
structure Command where
  buffer : List Char
  buffer_size : Nat
  cursor_position : Nat
deriving Repr, DecidableEq

/-- `command_init` from src/command.c: a 64-byte buffer holding the empty
string, cursor at 0. -/
def command_init : Command :=
  { buffer := List.replicate 64 '\x00', buffer_size := 64, cursor_position := 0 }

/-- `command_append` from src/command.c: grow (doubling) when the cursor is
at `buffer_size - 1`, then store the character and a NUL terminator. -/
def command_append (c : Command) (ch : Char) : Command :=
  let c :=
    if c.cursor_position = c.buffer_size - 1 then
      { c with buffer_size := 2 * c.buffer_size,
               buffer := (c.buffer ++ List.replicate c.buffer_size '\x00') }
    else c
  { c with buffer := (c.buffer.set c.cursor_position ch).set
             (c.cursor_position + 1) '\x00',
           cursor_position := c.cursor_position + 1 }

/-- The dispatcher states, from src/editor.h (`EditorState`); `Running` is
the spec's Normal mode. -/
inductive EditorState where
  | Running
  | CollectingCommand
  | ProcessingCommand
  | EditMode
  | Exiting
deriving Repr, DecidableEq

/-- `editor_collect_command` from src/editor.c (lines 128-144): Enter moves
to command execution, Escape discards the command line, Backspace (key 263 =
ncurses `KEY_BACKSPACE`, or 127) decrements the `size_t` cursor — with
wrap-around at 0 — and writes a NUL at the new cursor index (for cursor 0
that index is `2^64 - 1`, far outside the buffer; `List.set` out of range
leaves the model's buffer unchanged), and any other key is appended. -/
def editor_collect_command (cmd : Command) (key : Nat) : Command × EditorState :=
  if key = 10 then (cmd, .ProcessingCommand)
  else if key = 27 then
    ({ buffer := [], buffer_size := 0, cursor_position := 0 }, .Running)
  else if key = 263 ∨ key = 127 then
    let pos := (cmd.cursor_position + (sizeTMod - 1)) % sizeTMod
    ({ cmd with cursor_position := pos, buffer := cmd.buffer.set pos '\x00' },
     .CollectingCommand)
  else (command_append cmd (Char.ofNat key), .CollectingCommand)

/-- `CommandResult` from src/editor.c. -/
inductive CommandResult where
  | Success
  | CommandNotFound
  | ShouldExit
deriving Repr, DecidableEq

/-- `editor_process_save_command` from src/editor.c (lines 156-201).  The
command line is `cmd` (without the leading colon), `bufFilename` is
`buffer_get_filename(editor->current_buffer)`, and `fopen_ok` abstracts the
external `fopen` succeeding.  Returns the `CommandResult` and whether the
save collaborator (the `fopen`/`fprintf` file write) was invoked. -/
def editor_process_save_command (cmd : List Char) (bufFilename : Option (List Char))
    (fopen_ok : Bool) : CommandResult × Bool :=
  let finish : Option (List Char) → Bool → CommandResult × Bool :=
    fun filename should_exit =>
      match filename with
      | none => (.CommandNotFound, false)
      | some f =>
        if f.length = 0 then (.CommandNotFound, false)
        else if fopen_ok then
          (if should_exit then .ShouldExit else .Success, true)
        else (.CommandNotFound, true)
  if 1 < cmd.length then
    if cmd.getD 1 '\x00' = ' ' then
      let arg := (cmd.drop 2).dropWhile isWhitespaceChar
      finish (if arg.length = 0 then bufFilename else some arg) false
    else if cmd.getD 1 '\x00' = 'q' then finish bufFilename true
    else (.CommandNotFound, false)
  else finish bufFilename false

/-- `editor_process_command` from src/editor.c (lines 203-217): `q` exits, a
line starting with `w` goes to the save command, anything else is
CommandNotFound. -/
def editor_process_command (cmd : List Char) (bufFilename : Option (List Char))
    (fopen_ok : Bool) : CommandResult × Bool :=
  if cmd = ['q'] then (.ShouldExit, false)
  else if cmd.head? = some 'w' then
    editor_process_save_command cmd bufFilename fopen_ok
  else (.CommandNotFound, false)

/-- The `EditorState_ProcessingCommand` arm of `editor_process_key`
(src/editor.c lines 773-792): maps the `CommandResult` to the next
dispatcher state, setting the "Command not found" status message on
CommandNotFound.  Returns (next state, status message emitted, save
collaborator invoked). -/
def editor_dispatch_command (cmd : List Char) (bufFilename : Option (List Char))
    (fopen_ok : Bool) : EditorState × Bool × Bool :=
  let r := editor_process_command cmd bufFilename fopen_ok
  match r.1 with
  | .ShouldExit => (.Exiting, false, r.2)
  | .CommandNotFound => (.Running, true, r.2)
  | .Success => (.Running, false, r.2)

lemma highlightOneRow_slashstar (prev : Option BufferRow) (a b : EHighlightToken)
    (alloc : Nat) (dty : Bool) (co so : Nat)
    (hprev : ∀ p, prev = some p → p.highlight_string_open = 0) :
    (highlightOneRow prev initHlScan
        ⟨['/', '*'], [a, b], alloc, dty, co, so⟩).1.highlight_data
      = [.Comment, .Comment]
    ∧ (highlightOneRow prev initHlScan
        ⟨['/', '*'], [a, b], alloc, dty, co, so⟩).1.highlight_comment_open ≠ 0
    ∧ (highlightOneRow prev initHlScan
        ⟨['/', '*'], [a, b], alloc, dty, co, so⟩).1.data = ['/', '*']
    ∧ (highlightOneRow prev initHlScan
        ⟨['/', '*'], [a, b], alloc, dty, co, so⟩).2.process_next_row = false := by
  cases prev with
  | none =>
    exact ⟨rfl, one_ne_zero, rfl, rfl⟩
  | some p =>
    have hso : p.highlight_string_open = 0 := hprev p rfl
    rcases hco : p.highlight_comment_open with _ | c
    · simp only [highlightOneRow, hso, hco]
      refine ⟨?_, ?_, ?_, ?_⟩ <;> first | trivial | rfl | exact one_ne_zero
    · simp only [highlightOneRow, hso, hco]
      refine ⟨?_, ?_, ?_, ?_⟩ <;> first | trivial | rfl | exact Nat.succ_ne_zero c

/-- C1.  Corrected.  Re-highlighting row `k` whose content is `"/*"` (a block
comment opened and not closed) sets row `k`'s exit state to comment-open and
tags row `k` itself as Comment, and rows before `k` keep their tags — but the
scan stops there: row `k + 1` is returned unchanged, not re-highlighted
(`process_next_row` is only ever set by the open-string continuation, never
by a comment-state change), so the Comment tagging of the claim does not
propagate to row `k + 1`. -/
theorem C1_theorem (doc : List BufferRow) (k : Nat) (r : BufferRow)
    (rest : List BufferRow)
    (hdrop : doc.drop k = r :: rest) (hdata : r.data = ['/', '*'])
    (hhl : r.highlight_data.length = 2)
    (hprev : ∀ p, (if k = 0 then none else doc.get? (k - 1)) = some p →
      p.highlight_string_open = 0) :
    ∃ r', buffer_highlight_at doc k = doc.take k ++ r' :: rest ∧
      r'.highlight_comment_open ≠ 0 ∧
      r'.highlight_data = [.Comment, .Comment] ∧
      r'.data = r.data := by
  obtain ⟨d, hlist, alloc, dty, co, so⟩ := r
  dsimp only at hdata hhl hprev ⊢
  obtain ⟨a, b, hab⟩ := List.length_eq_two.mp hhl
  subst hdata hab
  have h := highlightOneRow_slashstar
    (if k = 0 then none else doc.get? (k - 1)) a b alloc dty co so hprev
  refine ⟨(highlightOneRow (if k = 0 then none else doc.get? (k - 1))
      initHlScan ⟨['/', '*'], [a, b], alloc, dty, co, so⟩).1,
    ?_, h.2.1, h.1, h.2.2.1⟩
  simp only [buffer_highlight_at, buffer_row_highlight_line, hdrop,
    highlightLines, h.2.2.2, if_false]
  simp

/-- C1.  Counterexample to the claim as stated: on the two-row document
`["/*", "ab"]`, re-highlighting row 0 sets its exit state to comment-open,
but row 1 keeps its old `Normal` tags — its characters are not tagged
Comment, so no re-highlighting cascaded into it. -/
theorem C1_counterexample :
    (buffer_highlight_at
        [⟨['/', '*'], [.Normal, .Normal], 3, false, 0, 0⟩,
         ⟨['a', 'b'], [.Normal, .Normal], 3, false, 0, 0⟩] 0).map
        (·.highlight_data)
      = [[.Comment, .Comment], [.Normal, .Normal]] ∧
    (buffer_highlight_at
        [⟨['/', '*'], [.Normal, .Normal], 3, false, 0, 0⟩,
         ⟨['a', 'b'], [.Normal, .Normal], 3, false, 0, 0⟩] 0).map
        (·.highlight_comment_open) = [1, 0] ∧
    [EHighlightToken.Normal, .Normal] ≠ [.Comment, .Comment] := by decide

theorem C1_witness :
    ∃ r', buffer_highlight_at
        [⟨['/', '*'], [.Normal, .Normal], 3, false, 0, 0⟩,
         ⟨['x'], [.Normal], 2, false, 0, 0⟩] 0
      = List.take 0
          [⟨['/', '*'], [.Normal, .Normal], 3, false, 0, 0⟩,
           (⟨['x'], [.Normal], 2, false, 0, 0⟩ : BufferRow)] ++
          r' :: [⟨['x'], [.Normal], 2, false, 0, 0⟩] ∧
      r'.highlight_comment_open ≠ 0 ∧
      r'.highlight_data = [.Comment, .Comment] ∧
      r'.data = (⟨['/', '*'], [.Normal, .Normal], 3, false, 0, 0⟩ : BufferRow).data :=
  C1_theorem _ 0 _ _ rfl rfl (by decide) (by intro p hp; simp at hp)

/-- C5.  Code bug: a digit character outside an identifier is tagged
`Normal`, not `Digit` — the scan's `Digit` store (src/buffer_row.c line 212)
is immediately overwritten by the unconditional `Normal` store on line 217.
Evaluated on the rows `"5"` and `"a 5"`: every digit ends up `Normal`. -/
theorem C5_theorem :
    (buffer_row_highlight_line none
        [⟨['5'], [.Normal], 2, false, 0, 0⟩]).map (·.highlight_data)
      = [[.Normal]] ∧
    (buffer_row_highlight_line none
        [⟨['a', ' ', '5'], [.Normal, .Normal, .Normal], 4, false, 0, 0⟩]).map
        (·.highlight_data)
      = [[.Normal, .Normal, .Normal]] ∧
    EHighlightToken.Normal ≠ .Digit := by decide

/-- C7.  Code bug, evaluated: on a one-row document holding `"abc"`, the
`dd` sequence replaces the row via `buffer_row_replace_line(row, "\n")`, so
the document still has exactly one row, but that row's content is the
one-character string `"\n"` — not the empty content the claim states (and a
stored terminator, which rows otherwise never contain).  On a two-row
document `dd` removes the current row. -/
theorem C7_theorem :
    ((editor_process_dkey_sequence_dd
        ⟨[⟨"abc".toList, List.replicate 4 .Normal, 4, false, 0, 0⟩], 0⟩).rows.map
        (·.data) = [['\n']]) ∧
    (editor_process_dkey_sequence_dd
        ⟨[⟨"abc".toList, List.replicate 4 .Normal, 4, false, 0, 0⟩],
          0⟩).rows.length = 1 ∧
    (editor_process_dkey_sequence_dd
        ⟨[⟨"ab".toList, [.Normal, .Normal, .Normal], 3, false, 0, 0⟩,
          ⟨"cd".toList, [.Normal, .Normal, .Normal], 3, false, 0, 0⟩],
          0⟩).rows.length = 1 ∧
    (['\n'] : List Char) ≠ [] := by decide

/-- C9.  Code bug, evaluated: in Command-collect with cursor offset 0,
Backspace (key 127 or ncurses `KEY_BACKSPACE`) decrements the `size_t`
cursor, which wraps to `2^64 - 1` — far beyond the 64-byte buffer — and the
NUL store goes out of bounds; the cursor offset is not unchanged, so the
keypress is not the claimed no-op (the dispatcher does stay in
Command-collect). -/
theorem C9_theorem :
    (editor_collect_command command_init 127).2 = .CollectingCommand ∧
    (editor_collect_command command_init 127).1.cursor_position = sizeTMod - 1 ∧
    sizeTMod - 1 ≠ 0 ∧
    (editor_collect_command command_init 127).1.buffer_size ≤ sizeTMod - 1 := by
  decide

lemma firstWsFrom_le (row : List Char) :
    ∀ fuel i, i ≤ row.length → firstWsFrom row fuel i ≤ row.length := by
  intro fuel
  induction fuel with
  | zero => intro i hi; simp only [firstWsFrom]; split <;> omega
  | succ fuel ih =>
    intro i hi
    simp only [firstWsFrom]
    split
    · split
      · omega
      · exact ih (i + 1) (by omega)
    · omega

lemma firstNonWsFrom_le (row : List Char) :
    ∀ fuel i, i ≤ row.length → firstNonWsFrom row fuel i ≤ row.length := by
  intro fuel
  induction fuel with
  | zero => intro i hi; simp only [firstNonWsFrom]; split <;> omega
  | succ fuel ih =>
    intro i hi
    simp only [firstNonWsFrom]
    split
    · split
      · omega
      · exact ih (i + 1) (by omega)
    · omega

lemma nextWordLoop1_word (row : List Char) :
    ∀ fuel i fc, row.length ≤ fuel + i → i ≤ row.length →
      (fc = true ∨ (buffer_row_has_whitespace_at_position row i = false ∧
        i < row.length)) →
      nextWordLoop1 row fuel fc 0 i = (firstWsFrom row fuel i, true) := by
  intro fuel
  induction fuel with
  | zero =>
    intro i fc hf hi hfc
    rcases hfc with rfl | ⟨_, hlt⟩
    · have : i = row.length := by omega
      subst this
      simp [nextWordLoop1, firstWsFrom]
    · omega
  | succ fuel ih =>
    intro i fc hf hi hfc
    by_cases hlt : i < row.length
    · rcases hfc with rfl | ⟨hws, _⟩
      · by_cases hws2 : buffer_row_has_whitespace_at_position row (i : Int) = true
        · simp [nextWordLoop1, firstWsFrom, if_pos hlt, hws2]
        · simp only [Bool.not_eq_true] at hws2
          simp only [nextWordLoop1, firstWsFrom, if_pos hlt, hws2, not_true_eq_false,
            false_and, if_false, Nat.lt_irrefl, Bool.false_eq_true]
          exact ih (i + 1) true (by omega) (by omega) (Or.inl rfl)
      · simp only [nextWordLoop1, firstWsFrom, if_pos hlt, hws, Bool.false_eq_true,
          and_false, if_false, Nat.lt_irrefl]
        exact ih (i + 1) true (by omega) (by omega) (Or.inl rfl)
    · have hil : i = row.length := by omega
      subst hil
      rcases hfc with rfl | ⟨_, h⟩
      · simp [nextWordLoop1, firstWsFrom, Nat.lt_irrefl]
      · omega

/-- C2.  Corrected.  For every start column that holds a non-whitespace
character, `buffer_row_get_offset_to_next_word` returns the distance to the
first character of the next word (or to end-of-line when none exists),
matching the spec's word-motion semantics; all the concrete examples of the
claim hold (their start columns are all non-blank).  Starting on a
whitespace column the function can mis-land (see the counterexample): the
loop's `offset = stripped` reset re-reads positions before the start
column. -/
theorem C2_theorem :
    (∀ (row : List Char) (start : Nat), start < row.length →
      buffer_row_has_whitespace_at_position row (start : Int) = false →
      buffer_row_get_offset_to_next_word row (start : Int)
        = offset_to_next_word_boundary_spec row start) ∧
    buffer_row_get_offset_to_next_word "Hello world".toList 0 = 6 ∧
    buffer_row_get_offset_to_next_word "Hello world".toList 6 = 5 ∧
    buffer_row_get_offset_to_next_word "this      ha      fw  w w x".toList 0 = 10 ∧
    buffer_row_get_offset_to_next_word "this      ha      fw  w w x".toList 10 = 8 ∧
    buffer_row_get_offset_to_next_word "this      ha      fw  w w x".toList 18 = 4 ∧
    buffer_row_get_offset_to_next_word "this      ha      fw  w w x".toList 22 = 2 ∧
    buffer_row_get_offset_to_next_word "this      ha      fw  w w x".toList 24 = 2 := by
  refine ⟨?_, by decide, by decide, by decide, by decide, by decide, by decide,
    by decide⟩
  intro row start h1 h2
  have hcast : ¬ ((start : Int) < 0 ∨ (row.length : Int) ≤ (start : Int)) := by
    omega
  have htn : ((start : Int)).toNat = start := by omega
  have hloop := nextWordLoop1_word row row.length start false (by omega)
    (le_of_lt h1) (Or.inr ⟨h2, h1⟩)
  simp only [buffer_row_get_offset_to_next_word, offset_to_next_word_boundary_spec,
    if_neg hcast, htn, hloop, h2, Bool.false_eq_true, if_false]
  by_cases hlt2 : firstNonWsFrom row row.length
      (firstWsFrom row row.length start) < row.length
  · simp [hlt2]
  · have hle := firstNonWsFrom_le row row.length
      (firstWsFrom row row.length start)
      (firstWsFrom_le row row.length start (le_of_lt h1))
    have heq : firstNonWsFrom row row.length
        (firstWsFrom row row.length start) = row.length := by omega
    simp [hlt2, heq]

/-- C2.  Counterexample to the claim over every start column: on the row
`"ab c"` from the whitespace column 2, the next word starts at column 3
(distance 1), but the function returns −1 (the first loop exits with
`offset = stripped = 1`, a position before the start column). -/
theorem C2_counterexample :
    buffer_row_get_offset_to_next_word "ab c".toList 2 = -1 ∧
    offset_to_next_word_boundary_spec "ab c".toList 2 = 1 ∧
    (-1 : Int) ≠ 1 := by decide

theorem C2_witness :
    buffer_row_get_offset_to_next_word "Hello world".toList (0 : Nat)
      = offset_to_next_word_boundary_spec "Hello world".toList 0 :=
  C2_theorem.1 "Hello world".toList 0 (by decide) (by decide)

lemma prevWordLoop_bounds (row : List Char) (start : Nat) :
    ∀ i fc, i < start ∨ i = 0 →
      -(start : Int) ≤ prevWordLoop row start fc i ∧
      prevWordLoop row start fc i ≤ 0 := by
  intro i
  induction i with
  | zero =>
    intro fc _
    simp only [prevWordLoop]
    split <;> constructor <;> omega
  | succ i ih =>
    intro fc hi
    have hstart : i + 1 < start := by
      rcases hi with h | h
      · exact h
      · omega
    simp only [prevWordLoop]
    split
    · exact ih true (by omega)
    · split
      · exact ih false (by omega)
      · split
        · constructor <;> (push_cast; omega)
        · exact ih true (by omega)

/-- C10.  Confirmed: for every row and `0 ≤ start_index ≤ len`, the
previous-word query returns an offset `d` with `-start_index ≤ d ≤ 0`, so
the landing column stays in `[0, start_index]` — backward word motion never
moves right and never before column 0. -/
theorem C10_theorem (row : List Char) (start_index : Int)
    (h0 : 0 ≤ start_index) (h1 : start_index ≤ (row.length : Int)) :
    -start_index ≤ buffer_row_get_offset_to_prev_word row start_index ∧
    buffer_row_get_offset_to_prev_word row start_index ≤ 0 := by
  unfold buffer_row_get_offset_to_prev_word
  rw [if_neg (by omega)]
  have hb := prevWordLoop_bounds row start_index.toNat
    (start_index.toNat - 1) false (by omega)
  obtain ⟨ha, hc⟩ := hb
  constructor <;> omega

theorem C10_witness :
    -(2 : Int) ≤ buffer_row_get_offset_to_prev_word "Hello world".toList 2 ∧
    buffer_row_get_offset_to_prev_word "Hello world".toList 2 ≤ 0 :=
  C10_theorem "Hello world".toList 2 (by decide) (by decide)

/-- C3.  Corrected (amended): appending a raw line strips exactly one
trailing `'\n'` or `'\r'` character — not a `"\r\n"` pair as a unit — and
stores the remainder; in particular `"Hello world\n"` yields a row of length
11 with content `"Hello world"`. -/
theorem C3_theorem :
    (∀ (line : List Char) (c : Char), line.getLast? = some c →
      (c = '\n' ∨ c = '\r') →
      buffer_append_line_content line = line.dropLast ∧
      (buffer_append_line_content line).length + 1 = line.length) ∧
    buffer_append_line_content "Hello world\n".toList = "Hello world".toList ∧
    ("Hello world".toList).length = 11 := by
  refine ⟨?_, by decide, by decide⟩
  intro line c hlast hc
  have hne : line ≠ [] := by
    intro h
    subst h
    simp at hlast
  have h1 : buffer_append_line_content line = line.dropLast := by
    unfold buffer_append_line_content
    rw [hlast]
    exact if_pos hc
  refine ⟨h1, ?_⟩
  rw [h1, List.length_dropLast]
  have := List.length_pos.mpr hne
  omega

/-- C3.  Counterexample to the `"\r\n"` part of the claim: appending
`"Hello\r\n"` leaves `"Hello\r"` (length 6) — only the `'\n'` is stripped,
the `'\r'` of the `"\r\n"` terminator stays in the row. -/
theorem C3_counterexample :
    buffer_append_line_content "Hello\r\n".toList = "Hello\r".toList ∧
    strip_line_terminator_spec "Hello\r\n".toList = "Hello".toList ∧
    "Hello\r".toList ≠ "Hello".toList := by decide

theorem C3_witness :
    buffer_append_line_content "Hi\n".toList = ("Hi\n".toList).dropLast :=
  (C3_theorem.1 "Hi\n".toList '\n' (by decide) (Or.inl rfl)).1

lemma sizeTMod_eq : sizeTMod = 18446744073709551616 := by norm_num [sizeTMod]

/-- C4.  Corrected (amended): removal is fully bounds-checked — any
out-of-range index is a no-op returning 0, and a count exceeding
`len - index` is clamped to `len - index` — but insertion checks only
`index < 0` (returning nothing: the C function is `void`, so there is no
failure indication).  For `0 ≤ index ≤ len` on a well-formed row
(`len < allocated_size`) every access of the insertion stays inside the
(possibly reallocated) storage and the characters are inserted at `index`;
an `index > len` is not rejected (see the counterexample). -/
theorem C4_theorem :
    (∀ (r : RowMem) (index : Int) (number : Nat),
      index < 0 ∨ (r.data.length : Int) ≤ index →
      buffer_row_remove_chars r index number = (r, 0)) ∧
    (∀ (r : RowMem) (index : Int) (number : Nat),
      0 ≤ index → index < (r.data.length : Int) →
      (r.data.length : Int) - index < (number : Int) →
      (buffer_row_remove_chars r index number).2
          = r.data.length - index.toNat ∧
      (buffer_row_remove_chars r index number).1.data
          = r.data.take index.toNat) ∧
    (∀ (r : RowMem) (index : Int) (str : List Char),
      index < 0 → buffer_row_insert_chars r index str = some r) ∧
    (∀ (r : RowMem) (index : Int) (str : List Char),
      0 ≤ index → index ≤ (r.data.length : Int) →
      r.data.length < r.allocated_size →
      r.data.length + str.length + 1 < sizeTMod →
      buffer_row_insert_chars r index str
        = some ⟨r.data.take index.toNat ++ str ++ r.data.drop index.toNat,
                insertGrowth r.data.length str.length r.allocated_size⟩) := by
  refine ⟨?_, ?_, ?_, ?_⟩
  · intro r index number h
    unfold buffer_row_remove_chars
    rw [if_pos h]
  · intro r index number h0 h1 h2
    unfold buffer_row_remove_chars
    rw [if_neg (by omega)]
    simp only []
    have hcl : r.data.length < number + index.toNat := by omega
    rw [if_pos hcl]
    refine ⟨rfl, ?_⟩
    have hdr : index.toNat + (r.data.length - index.toNat) = r.data.length := by
      omega
    simp only [hdr, List.drop_length, List.append_nil]
  · intro r index str h
    unfold buffer_row_insert_chars
    rw [if_pos h]
  · intro r index str h0 h1 h2 h3
    rw [sizeTMod_eq] at h3
    unfold buffer_row_insert_chars
    rw [if_neg (by omega)]
    simp only []
    have hcnt : (((r.data.length : Int) - index + 1) % ((sizeTMod : Nat) : Int)).toNat
        = r.data.length - index.toNat + 1 := by
      rw [sizeTMod_eq]
      omega
    rw [hcnt]
    have hg : r.data.length + str.length + 1
        ≤ insertGrowth r.data.length str.length r.allocated_size := by
      unfold insertGrowth
      split <;> omega
    rw [if_pos ⟨by omega, by omega⟩, if_pos (by omega : index.toNat ≤ r.data.length)]

/-- C4.  Counterexample: insertion is not bounds-checked above `len`.  On the
two-character row `"ab"` (capacity 16), inserting `"X"` at index 4 makes the
`memmove` count `len - index + 1` wrap around in `size_t`, so its accesses
leave the row's storage (a fault, modelled as `none`); inserting at index 3
does not fault but is not a no-op either — the row's length grows to 3 —
and the `void` function returns no failure indication. -/
theorem C4_counterexample :
    buffer_row_insert_chars ⟨['a', 'b'], 16⟩ 4 ['X'] = none ∧
    buffer_row_insert_chars ⟨['a', 'b'], 16⟩ 3 ['X']
      = some ⟨['a', 'b', '\x00'], 16⟩ ∧
    (⟨['a', 'b', '\x00'], 16⟩ : RowMem) ≠ ⟨['a', 'b'], 16⟩ := by decide

theorem C4_witness :
    buffer_row_insert_chars ⟨['a'], 2⟩ 1 ['X'] = some ⟨['a', 'X'], 4⟩ := by
  have h := C4_theorem.2.2.2 ⟨['a'], 2⟩ 1 ['X'] (by decide) (by decide)
    (by decide) (by norm_num [sizeTMod])
  simpa using h

/-- C6.  Corrected (amended): in the current insertion path
(`buffer_row_insert_chars`, src/buffer_row.c) a triggered reallocation sets
the capacity to `(len + number) << 1`, i.e. `2 * (len + number)` — not
`max(needed, len + 16)`; the `max(needed, current_len + 16)` formula does
match the older single-character `buffer_row_insert_char` still present in
src/buffer.c, whose triggered reallocation sets `len + 16`
(`= max(len + 2, len + 16)`). -/
theorem C6_theorem :
    (∀ (r r' : RowMem) (index : Int) (str : List Char),
      buffer_row_insert_chars r index str = some r' →
      r'.allocated_size = insertGrowth r.data.length str.length r.allocated_size
        ∨ r' = r) ∧
    (∀ len number alloc : Nat, alloc ≤ len + number →
      insertGrowth len number alloc = 2 * (len + number)) ∧
    (∀ len alloc : Nat, alloc ≤ len + 1 →
      insertCharGrowthOld len alloc = growth_policy_spec (len + 2) len) := by
  refine ⟨?_, ?_, ?_⟩
  · intro r r' index str h
    unfold buffer_row_insert_chars at h
    by_cases hneg : index < 0
    · rw [if_pos hneg] at h
      right
      exact (Option.some.injEq .. ▸ h).symm
    · rw [if_neg hneg] at h
      simp only [] at h
      by_cases hb : index.toNat + str.length
          + (((r.data.length : Int) - index + 1) % ((sizeTMod : Nat) : Int)).toNat
          ≤ insertGrowth r.data.length str.length r.allocated_size
          ∧ index.toNat + str.length
          ≤ insertGrowth r.data.length str.length r.allocated_size
      · rw [if_pos hb] at h
        left
        cases h
        rfl
      · rw [if_neg hb] at h
        cases h
  · intro len number alloc h
    unfold insertGrowth
    rw [if_pos h]
  · intro len alloc h
    unfold insertCharGrowthOld growth_policy_spec
    rw [if_pos h]
    omega

/-- C6.  Counterexample: inserting one character into an empty row of
capacity 1 triggers reallocation; the code reallocates to
`(0 + 1) << 1 = 2`, while the claimed `max(needed, current_len + 16)` is
`max(1, 16) = 16`. -/
theorem C6_counterexample :
    buffer_row_insert_chars ⟨[], 1⟩ 0 ['X'] = some ⟨['X'], 2⟩ ∧
    growth_policy_spec 1 0 = 16 ∧ (2 : Nat) ≠ 16 := by decide

theorem C6_witness :
    insertGrowth 0 1 1 = 2 :=
  C6_theorem.2.1 0 1 1 (by decide)

/-- C8.  Confirmed (for a document with a usable filename and a writable
destination, i.e. the external save collaborator can open the file): the
collected line `q` drives the dispatcher to Exiting; a line starting with
`w` in one of its recognised forms (bare `w`, `w <path>`, `wq`) invokes the
save collaborator, and `wq` then transitions to Exiting; any other line
yields CommandNotFound, which emits a status message and returns the
dispatcher to Normal (`Running`). -/
theorem C8_theorem (cmd : List Char) (f : List Char) (hf : f ≠ []) :
    (cmd = ['q'] →
      editor_dispatch_command cmd (some f) true = (.Exiting, false, false)) ∧
    (cmd.head? = some 'w' →
      (cmd.length ≤ 1 ∨ cmd.getD 1 '\x00' = ' ' ∨ cmd.getD 1 '\x00' = 'q') →
      (editor_dispatch_command cmd (some f) true).2.2 = true) ∧
    (cmd.head? = some 'w' → cmd.getD 1 '\x00' = 'q' → 1 < cmd.length →
      (editor_dispatch_command cmd (some f) true).1 = .Exiting) ∧
    (cmd ≠ ['q'] → cmd.head? ≠ some 'w' →
      editor_dispatch_command cmd (some f) true = (.Running, true, false)) := by
  have hfl : f.length ≠ 0 := by simpa using hf
  refine ⟨?_, ?_, ?_, ?_⟩
  · intro h
    subst h
    rfl
  · intro hw hform
    obtain ⟨c0, tl, rfl⟩ : ∃ c0 tl, cmd = c0 :: tl := by
      cases cmd with
      | nil => simp at hw
      | cons a b => exact ⟨a, b, rfl⟩
    have hc0 : c0 = 'w' := by simpa using hw
    subst hc0
    rcases tl with _ | ⟨c1, tl2⟩
    · simp [editor_dispatch_command, editor_process_command,
        editor_process_save_command, hfl]
    · have hgt : 1 < ('w' :: c1 :: tl2 : List Char).length := by
        simp
      rcases hform with hlen | hsp | hq
      · simp at hlen
      · have hc1 : c1 = ' ' := by simpa using hsp
        subst hc1
        by_cases harg : (tl2.dropWhile isWhitespaceChar).length = 0
        · simp [editor_dispatch_command, editor_process_command,
            editor_process_save_command, hgt, harg, hfl]
        · simp [editor_dispatch_command, editor_process_command,
            editor_process_save_command, hgt, harg, hfl]
      · have hc1 : c1 = 'q' := by simpa using hq
        subst hc1
        simp [editor_dispatch_command, editor_process_command,
          editor_process_save_command, hgt, hfl]
  · intro hw hq hlen
    obtain ⟨c0, tl, rfl⟩ : ∃ c0 tl, cmd = c0 :: tl := by
      cases cmd with
      | nil => simp at hw
      | cons a b => exact ⟨a, b, rfl⟩
    have hc0 : c0 = 'w' := by simpa using hw
    subst hc0
    rcases tl with _ | ⟨c1, tl2⟩
    · simp at hlen
    · have hc1 : c1 = 'q' := by simpa using hq
      subst hc1
      have hgt : 1 < ('w' :: 'q' :: tl2 : List Char).length := by
        simp
      simp [editor_dispatch_command, editor_process_command,
        editor_process_save_command, hgt, hfl]
  · intro hnq hnw
    simp [editor_dispatch_command, editor_process_command, hnq, hnw]

theorem C8_witness :
    (editor_dispatch_command ['w', 'q'] (some ['a']) true).1
      = EditorState.Exiting := by
  have h := C8_theorem
  exact (h ['w', 'q'] ['a'] (by decide)).2.2.1 (by decide) (by decide) (by decide)
